import Mathlib

/-!
Verification of the qemubox containerd shim against its specification.

This file gives a shallow embedding, in Lean 4, of the parts of the Go
source that the specification's claims are about:

* `internal/guest/vminit/stdio/manager.go` — the guest `StdioManager`
  (ring buffers, fan-out readers, subscribe, stdin, I/O quiescence);
* the guest `exitTracker` (`Subscribe` / `HandleStart` / `NotifyExit` /
  `ShouldDelayInitExit` / `NotifyExecExit`);
* the `iotimeouts` constant package;
* `internal/shim/transform/bundle.go` (`TransformBindMounts`) together
  with `Bundle.AddExtraFile`;
* `internal/guest/vminit/runc/util.go` (`RelaxOCISpec`).

Go maps are modelled as association lists, Go byte slices as `List Nat`,
Go `int` fields as `Int`, durations as nanosecond counts (`Nat`), and
file-system paths as lists of clean path components, so that
`filepath.Base` is the last component and `filepath.Dir` drops it.
Concurrency is modelled by explicit event traces: a scheduler chooses an
interleaving of atomic steps (each Go critical section is one step), and
properties are proved for every valid trace.
-/

/-- One chunk sent to stdio subscribers; embeds Go `OutputData`
(`manager.go`): either a data chunk or an EOF marker. -/
structure OutputData where
  data : List Nat
  eof : Bool
deriving DecidableEq, Repr

/-- Embeds the Go constant `maxBufferedBytes = 256 * 1024` from
`manager.go` (equal to `iotimeouts.MaxBufferedBytes`). -/
def maxBufferedBytes : Int := 256 * 1024

/-- Embeds the Go constant `subscriberChannelBuffer = 64` from
`manager.go` (equal to `iotimeouts.SubscriberChannelBuffer`). -/
def subscriberChannelBuffer : Nat := 64

/-- Total byte size of a buffered chunk list (the quantity the Go code
tracks in `stdoutBufBytes` / `stderrBufBytes`). -/
def sumBytes : List OutputData → Int
  | [] => 0
  | d :: rest => (d.data.length : Int) + sumBytes rest

theorem sumBytes_append (xs ys : List OutputData) :
    sumBytes (xs ++ ys) = sumBytes xs + sumBytes ys := by
  induction xs with
  | nil => simp [sumBytes]
  | cons d rest ih => simp [sumBytes, ih]; ring

/-- The eviction loop of `appendToStdoutBuffer` / `appendToStderrBuffer`:
`for bufBytes > maxBytes && len(buf) > 0 { bufBytes -= len(buf[0].Data); buf = buf[1:] }`. -/
def evictOldest (maxBytes : Int) : List OutputData → Int → List OutputData × Int
  | [], bytes => ([], bytes)
  | d :: rest, bytes =>
    if bytes > maxBytes then evictOldest maxBytes rest (bytes - d.data.length)
    else (d :: rest, bytes)

/-- Embeds Go `(*processIO).appendToStdoutBuffer` (`manager.go:526`):
append the chunk, add its size, then evict oldest whole chunks while the
byte count exceeds `maxBytes`. -/
def appendToStdoutBuffer (buf : List OutputData) (bufBytes : Int) (d : OutputData)
    (maxBytes : Int) : List OutputData × Int :=
  evictOldest maxBytes (buf ++ [d]) (bufBytes + d.data.length)

/-- Embeds Go `(*processIO).appendToStderrBuffer` (`manager.go:537`); the
body is textually identical to the stdout variant. -/
def appendToStderrBuffer (buf : List OutputData) (bufBytes : Int) (d : OutputData)
    (maxBytes : Int) : List OutputData × Int :=
  evictOldest maxBytes (buf ++ [d]) (bufBytes + d.data.length)

/-- Buffer states reachable for one stream of a `processIO`: the buffer
starts empty (`Register`), grows by `appendToStdoutBuffer` (fan-out with
no subscribers), and is reset by `drainBufferLocked` (on subscribe).
Each constructor is one Go critical section, so these are exactly the
externally observable (lock-free) states of the buffer. -/
inductive ReachableBuf : List OutputData → Int → Prop
  | init : ReachableBuf [] 0
  | append (buf : List OutputData) (bytes : Int) (d : OutputData)
      (h : ReachableBuf buf bytes) :
      ReachableBuf (appendToStdoutBuffer buf bytes d maxBufferedBytes).1
        (appendToStdoutBuffer buf bytes d maxBufferedBytes).2
  | drain (buf : List OutputData) (bytes : Int) (h : ReachableBuf buf bytes) :
      ReachableBuf [] 0

theorem evictOldest_sum (maxBytes : Int) (buf : List OutputData) (bytes : Int)
    (h : bytes = sumBytes buf) :
    (evictOldest maxBytes buf bytes).2 = sumBytes (evictOldest maxBytes buf bytes).1 := by
  induction buf generalizing bytes with
  | nil => simpa [evictOldest, sumBytes] using h
  | cons d rest ih =>
    rw [evictOldest]
    by_cases hgt : bytes > maxBytes
    · simp only [hgt, if_true]
      apply ih
      rw [h]
      simp [sumBytes]
    · simpa [hgt] using h

theorem evictOldest_le (maxBytes : Int) (hmax : 0 ≤ maxBytes) (buf : List OutputData)
    (bytes : Int) (h : bytes = sumBytes buf) :
    (evictOldest maxBytes buf bytes).2 ≤ maxBytes := by
  induction buf generalizing bytes with
  | nil =>
    have hb : bytes = 0 := by simpa [sumBytes] using h
    simp [evictOldest, hb, hmax]
  | cons d rest ih =>
    rw [evictOldest]
    by_cases hgt : bytes > maxBytes
    · simp only [hgt, if_true]
      apply ih
      rw [h]
      simp [sumBytes]
    · simpa [hgt] using le_of_not_lt hgt

theorem evictOldest_suffix (maxBytes : Int) (buf : List OutputData) (bytes : Int) :
    ∃ k, (evictOldest maxBytes buf bytes).1 = buf.drop k := by
  induction buf generalizing bytes with
  | nil => exact ⟨0, rfl⟩
  | cons d rest ih =>
    rw [evictOldest]
    by_cases hgt : bytes > maxBytes
    · simp only [hgt, if_true]
      obtain ⟨k, hk⟩ := ih (bytes - d.data.length)
      exact ⟨k + 1, by simpa using hk⟩
    · exact ⟨0, by simp [hgt]⟩

theorem reachableBuf_invariant (buf : List OutputData) (bytes : Int)
    (h : ReachableBuf buf bytes) : bytes = sumBytes buf ∧ bytes ≤ maxBufferedBytes := by
  induction h with
  | init => simp [sumBytes, maxBufferedBytes]
  | append buf bytes d h ih =>
    have hsum : bytes + (d.data.length : Int) = sumBytes (buf ++ [d]) := by
      rw [ih.1, sumBytes_append]
      simp [sumBytes]
    refine ⟨?_, ?_⟩
    · simpa [appendToStdoutBuffer] using
        evictOldest_sum maxBufferedBytes (buf ++ [d]) (bytes + d.data.length) hsum
    · simpa [appendToStdoutBuffer] using
        evictOldest_le maxBufferedBytes (by norm_num [maxBufferedBytes]) (buf ++ [d])
          (bytes + d.data.length) hsum
  | drain buf bytes h ih => simp [sumBytes, maxBufferedBytes]

/-- C3: For every ProcessIO, in every externally observable state the
stream buffer byte counter satisfies `stdoutBufBytes ≤ 256 KiB` (and
likewise for stderr, whose append operation is the identical
`appendToStderrBuffer`), and on overflow the append operation evicts the
oldest whole chunks in order — the resulting buffer is a suffix of the
old buffer with the new chunk appended, so chunks are never split. -/
theorem ringBuffer_bound_and_whole_chunk_eviction :
    (∀ buf bytes, ReachableBuf buf bytes → bytes ≤ maxBufferedBytes) ∧
    (∀ buf bytes d, bytes = sumBytes buf →
      ∃ k, (appendToStdoutBuffer buf bytes d maxBufferedBytes).1 = (buf ++ [d]).drop k ∧
        (appendToStdoutBuffer buf bytes d maxBufferedBytes).2 ≤ maxBufferedBytes ∧
        appendToStderrBuffer buf bytes d maxBufferedBytes =
          appendToStdoutBuffer buf bytes d maxBufferedBytes) := by
  constructor
  · intro buf bytes h
    exact (reachableBuf_invariant buf bytes h).2
  · intro buf bytes d h
    have hsum : bytes + (d.data.length : Int) = sumBytes (buf ++ [d]) := by
      rw [h, sumBytes_append]
      simp [sumBytes]
    obtain ⟨k, hk⟩ := evictOldest_suffix maxBufferedBytes (buf ++ [d]) (bytes + d.data.length)
    exact ⟨k, hk,
      evictOldest_le maxBufferedBytes (by norm_num [maxBufferedBytes]) (buf ++ [d])
        (bytes + d.data.length) hsum, rfl⟩

/-- Witness for C3: the bound at a concrete reachable state, and the
eviction shape at a concrete append. -/
theorem ringBuffer_bound_witness :
    ((0 : Int) ≤ maxBufferedBytes) ∧
    ∃ k, (appendToStdoutBuffer [⟨[1, 2], false⟩] 2 ⟨[3], false⟩ maxBufferedBytes).1 =
        (([⟨[1, 2], false⟩] ++ [⟨[3], false⟩] : List OutputData)).drop k ∧
      (appendToStdoutBuffer [⟨[1, 2], false⟩] 2 ⟨[3], false⟩ maxBufferedBytes).2 ≤
        maxBufferedBytes ∧
      appendToStderrBuffer [⟨[1, 2], false⟩] 2 ⟨[3], false⟩ maxBufferedBytes =
        appendToStdoutBuffer [⟨[1, 2], false⟩] 2 ⟨[3], false⟩ maxBufferedBytes :=
  ⟨ringBuffer_bound_and_whole_chunk_eviction.1 [] 0 ReachableBuf.init,
    ringBuffer_bound_and_whole_chunk_eviction.2 [⟨[1, 2], false⟩] 2 ⟨[3], false⟩ (by
      simp [sumBytes])⟩

/-- One nanosecond count per second, matching Go `time.Second`. -/
def goSecond : Nat := 1000000000

/-- Embeds `iotimeouts.SubscriberWaitTimeout = 10 * time.Second`
(package `iotimeouts`). -/
def SubscriberWaitTimeout : Nat := 10 * goSecond

/-- Embeds `iotimeouts.HostIOWaitTimeout = 30 * time.Second`
(package `iotimeouts`). -/
def HostIOWaitTimeout : Nat := 30 * goSecond

/-- Embeds the guest-local constant `subscriberWaitTimeout = 10 *
time.Second` in `manager.go:481`, the one `WaitForIOComplete` actually
selects on. -/
def subscriberWaitTimeout : Nat := 10 * goSecond

/-- Embeds the subscriber-barrier part of `(*Manager).WaitForIOComplete`
(`manager.go:491`).  Input: whether the key is registered, and the time
(ns after the fan-out readers finished) at which `subscriberWg.Wait`
would complete (`none` = never, e.g. a subscriber that never calls its
done function).  Output: the time spent waiting on the barrier and
whether the timeout warning was logged.  The `select` between the wait
and `time.After(subscriberWaitTimeout)` completes on whichever is
earlier; a tie is resolved in favour of the completed wait. -/
def waitForIOComplete (registered : Bool) (subsDoneAt : Option Nat) : Nat × Bool :=
  if !registered then (0, false)
  else
    match subsDoneAt with
    | some t => if t ≤ subscriberWaitTimeout then (t, false) else (subscriberWaitTimeout, true)
    | none => (subscriberWaitTimeout, true)

/-- C6: the guest subscriber-barrier timeout is 10 s, the host
exit-forwarder timeout is 30 s, the host timeout exceeds the guest one
by at least 12 s, and `WaitForIOComplete` waits on the
subscriber-completion group for at most `SubscriberWaitTimeout` (its
local constant equals the shared one), returning with a warning when the
group does not complete within that cap. -/
theorem ioTimeout_hierarchy :
    SubscriberWaitTimeout = 10 * goSecond ∧
    HostIOWaitTimeout = 30 * goSecond ∧
    SubscriberWaitTimeout + 12 * goSecond ≤ HostIOWaitTimeout ∧
    subscriberWaitTimeout = SubscriberWaitTimeout ∧
    (∀ registered subsDoneAt,
      (waitForIOComplete registered subsDoneAt).1 ≤ SubscriberWaitTimeout) ∧
    (∀ registered t, registered = true → t > subscriberWaitTimeout →
      waitForIOComplete registered (some t) = (SubscriberWaitTimeout, true)) ∧
    (∀ registered, registered = true →
      waitForIOComplete registered none = (SubscriberWaitTimeout, true)) := by
  refine ⟨rfl, rfl, by norm_num [SubscriberWaitTimeout, HostIOWaitTimeout, goSecond], rfl,
    ?_, ?_, ?_⟩
  · intro registered subsDoneAt
    cases registered <;> cases subsDoneAt <;>
      simp [waitForIOComplete, subscriberWaitTimeout, SubscriberWaitTimeout] <;>
      split <;> omega
  · intro registered t hr ht
    subst hr
    simp only [waitForIOComplete, Bool.not_true, Bool.false_eq_true, if_false,
      Nat.not_le.mpr ht, reduceIte]
    rfl
  · intro registered hr
    subst hr
    simp [waitForIOComplete, subscriberWaitTimeout, SubscriberWaitTimeout]

/-- Witness for C6 at concrete inputs. -/
theorem ioTimeout_hierarchy_witness :
    (waitForIOComplete true (some (11 * goSecond))).1 ≤ SubscriberWaitTimeout ∧
    waitForIOComplete true (some (11 * goSecond)) = (SubscriberWaitTimeout, true) ∧
    waitForIOComplete true none = (SubscriberWaitTimeout, true) :=
  ⟨ioTimeout_hierarchy.2.2.2.2.1 true (some (11 * goSecond)),
    ioTimeout_hierarchy.2.2.2.2.2.1 true (11 * goSecond) rfl (by
      norm_num [subscriberWaitTimeout, goSecond]),
    ioTimeout_hierarchy.2.2.2.2.2.2 true rfl⟩

/-- Association-list lookup, modelling a Go map read. -/
def lookupKey {α β : Type} [DecidableEq α] : List (α × β) → α → Option β
  | [], _ => none
  | (k, v) :: rest, key => if k = key then some v else lookupKey rest key

/-- Association-list removal, modelling Go `delete(map, key)`. -/
def removeKey {α β : Type} [DecidableEq α] : List (α × β) → α → List (α × β)
  | [], _ => []
  | (k, v) :: rest, key =>
    if k = key then removeKey rest key else (k, v) :: removeKey rest key

/-- Association-list write, modelling Go `map[key] = v`. -/
def setKey {α β : Type} [DecidableEq α] : List (α × β) → α → β → List (α × β)
  | [], key, v => [(key, v)]
  | (k, w) :: rest, key, v =>
    if k = key then (key, v) :: rest else (k, w) :: setKey rest key v

theorem lookupKey_removeKey {α β : Type} [DecidableEq α] (m : List (α × β)) (key : α) :
    lookupKey (removeKey m key) key = none := by
  induction m with
  | nil => rfl
  | cons kv rest ih =>
    obtain ⟨k, v⟩ := kv
    by_cases hk : k = key
    · simpa [removeKey, hk] using ih
    · simpa [removeKey, lookupKey, hk] using ih

/-- Identifies a process inside the stdio manager; embeds Go `processKey`
(containerID, execID). -/
abbrev ProcKey := String × String

/-- Which output stream an operation addresses (Go passes a
`getSubs` selector closure; the two closures pick these two fields). -/
inductive StreamSel
  | stdout
  | stderr
deriving DecidableEq, Repr

/-- State of one `processIO` (`manager.go:63`), restricted to the fields
the embedded operations read or write.  Subscriber lists are modelled by
their length; `subscriberWg` by its counter. -/
structure ProcIOState where
  stdinPresent : Bool
  stdinClosed : Bool
  stdoutBuf : List OutputData
  stderrBuf : List OutputData
  stdoutBufBytes : Int
  stderrBufBytes : Int
  exited : Bool
  stdoutSubsCount : Nat
  stderrSubsCount : Nat
  subscriberWgCount : Nat
deriving DecidableEq, Repr

/-- The manager's process map (`Manager.processes`). -/
abbrev ManagerState := List (ProcKey × ProcIOState)

/-- Read the addressed stream's buffer. -/
def streamBuf (pio : ProcIOState) : StreamSel → List OutputData
  | .stdout => pio.stdoutBuf
  | .stderr => pio.stderrBuf

/-- Read the addressed stream's byte counter. -/
def streamBufBytes (pio : ProcIOState) : StreamSel → Int
  | .stdout => pio.stdoutBufBytes
  | .stderr => pio.stderrBufBytes

/-- Embeds Go `(*Manager).drainBufferLocked` (`manager.go:372`): return
the addressed stream's buffered chunks and reset that buffer to nil with
a zero byte counter. -/
def drainBufferLocked (pio : ProcIOState) (sel : StreamSel) : List OutputData × ProcIOState :=
  match sel with
  | .stdout => (pio.stdoutBuf, { pio with stdoutBuf := [], stdoutBufBytes := 0 })
  | .stderr => (pio.stderrBuf, { pio with stderrBuf := [], stderrBufBytes := 0 })

/-- Error values surfaced by the stdio manager (wrapped `errdefs`
errors in Go). -/
inductive StdioError
  | notFound
  | failedPrecondition
  | writeFailed
deriving DecidableEq, Repr

/-- What a subscriber receives from `subscribe`: the chunks pre-loaded on
the returned channel, whether the channel is already closed, and whether
the returned done function is a no-op. -/
structure SubscribeResult where
  queue : List OutputData
  closed : Bool
  doneIsNoop : Bool
deriving DecidableEq, Repr

/-- Embeds Go `(*Manager).subscribe` (`manager.go:345`) together with
`subscribeToExitedProcess` and `createActiveSubscriber` /
`sendBufferedData`: unknown key fails NotFound; otherwise the stream's
ring buffer is drained first; if the process has exited the result is a
closed synthetic channel holding the buffered chunks plus one EOF and a
no-op done function; otherwise a live subscriber is appended (the
buffered chunks are re-sent non-blockingly into the fresh channel of
capacity 64, so at most the first 64 fit). -/
def subscribe (m : ManagerState) (key : ProcKey) (sel : StreamSel) :
    Except StdioError (SubscribeResult × ManagerState) :=
  match lookupKey m key with
  | none => .error .notFound
  | some pio =>
    let drained := drainBufferLocked pio sel
    let buffered := drained.1
    let pio1 := drained.2
    if pio1.exited then
      .ok ({ queue := buffered ++ [⟨[], true⟩], closed := true, doneIsNoop := true },
        setKey m key pio1)
    else
      let pio2 :=
        match sel with
        | .stdout =>
          { pio1 with
            stdoutSubsCount := pio1.stdoutSubsCount + 1
            subscriberWgCount := pio1.subscriberWgCount + 1 }
        | .stderr =>
          { pio1 with
            stderrSubsCount := pio1.stderrSubsCount + 1
            subscriberWgCount := pio1.subscriberWgCount + 1 }
      .ok ({ queue := buffered.take subscriberChannelBuffer
             closed := false
             doneIsNoop := false }, setKey m key pio2)

/-- Embeds the map-level effect of Go `(*Manager).Unregister`
(`manager.go:224`): if the key is present, remove it from the process
map (the removed record is then mutated privately); otherwise do
nothing. -/
def unregister (m : ManagerState) (key : ProcKey) : ManagerState :=
  match lookupKey m key with
  | none => m
  | some _ => removeKey m key

/-- Embeds Go `(*Manager).WriteStdin` (`manager.go:270`).  The `sink`
argument models `pio.stdin.Write`, returning either the byte count
written or a write error. -/
def writeStdin (m : ManagerState) (key : ProcKey) (data : List Nat)
    (sink : List Nat → Except Unit Int) : Except StdioError Int :=
  match lookupKey m key with
  | none => .error .notFound
  | some pio =>
    if pio.stdinClosed then .error .failedPrecondition
    else if !pio.stdinPresent then .error .failedPrecondition
    else
      match sink data with
      | .error _ => .error .writeFailed
      | .ok n => .ok n

/-- C5: `SubscribeStdout`/`SubscribeStderr` fail NotFound exactly when
the key is not in the process map (in particular after `Unregister`);
when the key is present and the process has exited, they return an
already-closed synthetic queue pre-loaded with that stream's remaining
buffered chunks followed by exactly one EOF chunk, with a no-op done
function; and in the exited and live cases alike, the addressed stream's
ring buffer is reset to empty with a zero byte counter first. -/
theorem subscribe_contract :
    (∀ (m : ManagerState) (key : ProcKey) (sel : StreamSel),
      (subscribe m key sel = .error .notFound ↔ lookupKey m key = none)) ∧
    (∀ (m : ManagerState) (key : ProcKey) (sel : StreamSel),
      subscribe (unregister m key) key sel = .error .notFound) ∧
    (∀ (m : ManagerState) (key : ProcKey) (sel : StreamSel) (pio : ProcIOState),
      lookupKey m key = some pio → pio.exited = true →
      subscribe m key sel =
        .ok ({ queue := streamBuf pio sel ++ [⟨[], true⟩]
               closed := true
               doneIsNoop := true }, setKey m key (drainBufferLocked pio sel).2) ∧
      streamBuf (drainBufferLocked pio sel).2 sel = [] ∧
      streamBufBytes (drainBufferLocked pio sel).2 sel = 0) ∧
    (∀ (m : ManagerState) (key : ProcKey) (sel : StreamSel) (pio : ProcIOState),
      lookupKey m key = some pio → pio.exited = false →
      ∃ pio2 : ProcIOState,
        subscribe m key sel =
          .ok ({ queue := (streamBuf pio sel).take subscriberChannelBuffer
                 closed := false
                 doneIsNoop := false }, setKey m key pio2) ∧
        streamBuf pio2 sel = [] ∧ streamBufBytes pio2 sel = 0 ∧
        pio2.subscriberWgCount = pio.subscriberWgCount + 1) := by
  refine ⟨?_, ?_, ?_, ?_⟩
  · intro m key sel
    cases hl : lookupKey m key with
    | none => simp [subscribe, hl]
    | some pio =>
      simp only [subscribe, hl]
      cases sel <;> by_cases hex : pio.exited <;>
        simp [drainBufferLocked, hex, hl]
  · intro m key sel
    have h : lookupKey (unregister m key) key = none := by
      unfold unregister
      cases hl : lookupKey m key with
      | none => exact hl
      | some pio => exact lookupKey_removeKey m key
    simp [subscribe, h]
  · intro m key sel pio hl hex
    cases sel <;> simp [subscribe, hl, drainBufferLocked, hex, streamBuf, streamBufBytes]
  · intro m key sel pio hl hex
    cases sel with
    | stdout =>
      refine ⟨{ pio with
          stdoutBuf := []
          stdoutBufBytes := 0
          stdoutSubsCount := pio.stdoutSubsCount + 1
          subscriberWgCount := pio.subscriberWgCount + 1 },
        ?_, by simp [streamBuf], by simp [streamBufBytes], by simp⟩
      simp [subscribe, hl, drainBufferLocked, hex, streamBuf]
    | stderr =>
      refine ⟨{ pio with
          stderrBuf := []
          stderrBufBytes := 0
          stderrSubsCount := pio.stderrSubsCount + 1
          subscriberWgCount := pio.subscriberWgCount + 1 },
        ?_, by simp [streamBuf], by simp [streamBufBytes], by simp⟩
      simp [subscribe, hl, drainBufferLocked, hex, streamBuf]

/-- Witness for C5 at a concrete manager state: an exited process with
one buffered stdout chunk, and NotFound after unregistering it. -/
theorem subscribe_contract_witness :
    (subscribe [((("c1", ""), (⟨true, false, [⟨[5], false⟩], [], 1, 0, true, 0, 0, 0⟩ :
        ProcIOState)))] ("c1", "") .stdout =
      .ok ({ queue := streamBuf ⟨true, false, [⟨[5], false⟩], [], 1, 0, true, 0, 0, 0⟩
                 .stdout ++ [⟨[], true⟩]
             closed := true
             doneIsNoop := true },
        setKey [((("c1", ""), (⟨true, false, [⟨[5], false⟩], [], 1, 0, true, 0, 0, 0⟩ :
          ProcIOState)))] ("c1", "")
          (drainBufferLocked ⟨true, false, [⟨[5], false⟩], [], 1, 0, true, 0, 0, 0⟩
            .stdout).2) ∧
      streamBuf (drainBufferLocked ⟨true, false, [⟨[5], false⟩], [], 1, 0, true, 0, 0, 0⟩
        .stdout).2 .stdout = [] ∧
      streamBufBytes (drainBufferLocked ⟨true, false, [⟨[5], false⟩], [], 1, 0, true, 0, 0, 0⟩
        .stdout).2 .stdout = 0) ∧
    subscribe (unregister [((("c1", ""), (⟨true, false, [⟨[5], false⟩], [], 1, 0, true, 0, 0,
      0⟩ : ProcIOState)))] ("c1", "")) ("c1", "") .stdout = .error .notFound :=
  ⟨subscribe_contract.2.2.1 _ ("c1", "") .stdout _ (by decide) rfl,
    subscribe_contract.2.1 _ ("c1", "") .stdout⟩

/-- C7: `WriteStdin` fails NotFound exactly when the key is not in the
process map, fails FailedPrecondition exactly when stdin has been closed
or no stdin sink was registered, and otherwise returns the byte count
reported by the stdin writer. -/
theorem writeStdin_contract :
    ∀ (m : ManagerState) (key : ProcKey) (data : List Nat)
      (sink : List Nat → Except Unit Int),
      (writeStdin m key data sink = .error .notFound ↔ lookupKey m key = none) ∧
      (writeStdin m key data sink = .error .failedPrecondition ↔
        ∃ pio, lookupKey m key = some pio ∧
          (pio.stdinClosed = true ∨ pio.stdinPresent = false)) ∧
      (∀ (pio : ProcIOState) (n : Int), lookupKey m key = some pio →
        pio.stdinClosed = false → pio.stdinPresent = true → sink data = .ok n →
        writeStdin m key data sink = .ok n) := by
  intro m key data sink
  refine ⟨?_, ?_, ?_⟩
  · cases hl : lookupKey m key with
    | none => simp [writeStdin, hl]
    | some pio =>
      simp only [writeStdin, hl]
      by_cases hc : pio.stdinClosed <;> by_cases hp : pio.stdinPresent <;>
        cases hs : sink data <;> simp [hc, hp, hs, hl]
  · cases hl : lookupKey m key with
    | none => simp [writeStdin, hl]
    | some pio =>
      simp only [writeStdin, hl]
      by_cases hc : pio.stdinClosed <;> by_cases hp : pio.stdinPresent <;>
        cases hs : sink data <;> simp [hc, hp, hs, hl]
  · intro pio n hl hc hp hs
    simp [writeStdin, hl, hc, hp, hs]

/-- Witness for C7: a concrete registered process with open stdin and a
sink that reports two bytes written. -/
theorem writeStdin_contract_witness :
    writeStdin [((("c1", ""), (⟨true, false, [], [], 0, 0, false, 0, 0, 0⟩ : ProcIOState)))]
      ("c1", "") [1, 2] (fun d => .ok (d.length : Int)) = .ok 2 :=
  (writeStdin_contract _ ("c1", "") [1, 2] (fun d => .ok (d.length : Int))).2.2
    ⟨true, false, [], [], 0, 0, false, 0, 0, 0⟩ 2 (by decide) rfl rfl rfl

theorem lookupKey_setKey_self {α β : Type} [DecidableEq α] (m : List (α × β)) (key : α)
    (v : β) : lookupKey (setKey m key v) key = some v := by
  induction m with
  | nil => simp [setKey, lookupKey]
  | cons kv rest ih =>
    obtain ⟨k, w⟩ := kv
    by_cases hk : k = key
    · simp [setKey, hk, lookupKey]
    · simpa [setKey, hk, lookupKey] using ih

theorem lookupKey_setKey_ne {α β : Type} [DecidableEq α] (m : List (α × β)) (key key2 : α)
    (v : β) (h : key2 ≠ key) : lookupKey (setKey m key v) key2 = lookupKey m key2 := by
  have hks : ¬key = key2 := fun he => h he.symm
  induction m with
  | nil => simp [setKey, lookupKey, hks]
  | cons kv rest ih =>
    obtain ⟨k, w⟩ := kv
    by_cases hk : k = key
    · subst hk
      simp [setKey, lookupKey, hks]
    · by_cases hk2 : k = key2
      · subst hk2
        simp [setKey, hk, lookupKey]
      · simp [setKey, hk, lookupKey, hk2, ih]

/-- Embeds Go `runc.Exit` as used by the exit tracker: the pid and exit
status of one observed process exit. -/
structure ExitRecord where
  pid : Int
  status : Int
deriving DecidableEq, Repr

/-- Identity of a `*runc.Container` pointer. -/
abbrev Container := Nat

/-- Embeds Go `containerProcess`: a container handle plus its process
descriptor, of which only the init/exec distinction (`p.(*process.Init)`)
is relevant to the tracker. -/
structure ContainerProcess where
  container : Container
  isInit : Bool
deriving DecidableEq, Repr

/-- The per-subscription exits map: pid → exits collected while the
subscription was live. -/
abbrev ExitMap := List (Int × List ExitRecord)

/-- Embeds the state of Go `exitTracker` (`exit_tracker.go`).
`execWaiters` lists the containers with a registered wait channel;
`waiterClosed` is a ghost log of the containers whose handed-out wait
channel has been closed (closing is observable to the channel's reader
even after the map entry is deleted). -/
structure ExitTrackerState where
  activeSubscriptions : List (Nat × ExitMap)
  running : List (Int × List ContainerProcess)
  runningExecs : List (Container × Int)
  execWaiters : List Container
  waiterClosed : List Container
deriving DecidableEq, Repr

/-- A Go map read of `runningExecs[c]`: a missing entry reads as 0. -/
def lookupCount (m : List (Container × Int)) (c : Container) : Int :=
  (lookupKey m c).getD 0

/-- Embeds Go `(*subscription).HandleStart` (`exit_tracker.go:114`): drop
the subscription; if the pid is 0 or early exits were captured for it,
return them without registering; otherwise append one `containerProcess`
to `running[pid]` and, when the process is not the init process,
increment the container's exec counter. -/
def handleStart (t : ExitTrackerState) (subId : Nat) (subExits : ExitMap) (c : Container)
    (pIsInit : Bool) (pid : Int) : List ExitRecord × ExitTrackerState :=
  let t1 := { t with activeSubscriptions := removeKey t.activeSubscriptions subId }
  let earlyExits := (lookupKey subExits pid).getD []
  if pid = 0 ∨ earlyExits ≠ [] then
    (earlyExits, t1)
  else
    let t2 := { t1 with
      running := setKey t1.running pid
        ((lookupKey t1.running pid).getD [] ++ [⟨c, pIsInit⟩]) }
    if pIsInit then ([], t2)
    else
      ([], { t2 with
        runningExecs := setKey t2.runningExecs c (lookupCount t2.runningExecs c + 1) })

/-- Embeds Go `(*exitTracker).ShouldDelayInitExit` (`exit_tracker.go:186`):
when the exec count reads zero, drop the map entry and report no delay;
otherwise register a fresh wait channel and report a delay.  The returned
Bool is the `delay` result; a channel is handed out exactly when it is
true. -/
def shouldDelayInitExit (t : ExitTrackerState) (c : Container) : Bool × ExitTrackerState :=
  if lookupCount t.runningExecs c = 0 then
    (false, { t with runningExecs := removeKey t.runningExecs c })
  else
    (true, { t with execWaiters := c :: t.execWaiters })

/-- Embeds Go `(*exitTracker).NotifyExecExit` (`exit_tracker.go:206`):
decrement the exec counter (writing the decremented value back, with a
missing entry read as zero); if the new value is exactly zero, drop the
entry and close-and-drop the container's wait channel if one is
registered. -/
def notifyExecExit (t : ExitTrackerState) (c : Container) : ExitTrackerState :=
  let v := lookupCount t.runningExecs c - 1
  let t1 := { t with runningExecs := setKey t.runningExecs c v }
  if v = 0 then
    let t2 := { t1 with runningExecs := removeKey t1.runningExecs c }
    if c ∈ t2.execWaiters then
      { t2 with
        execWaiters := t2.execWaiters.filter (· ≠ c)
        waiterClosed := c :: t2.waiterClosed }
    else t2
  else t1

/-- C4: `HandleStart` deletes the subscription; with pid 0 or captured
early exits it returns exactly those records and registers nothing;
otherwise it returns no early exits, appends exactly one new
`ContainerProcess` to `running[pid]` (other pids untouched), and
increments the container's exec counter if and only if the process is
not the init process. -/
theorem handleStart_contract :
    ∀ (t : ExitTrackerState) (subId : Nat) (subExits : ExitMap) (c : Container)
      (pIsInit : Bool) (pid : Int),
      (handleStart t subId subExits c pIsInit pid).2.activeSubscriptions =
        removeKey t.activeSubscriptions subId ∧
      ((pid = 0 ∨ (lookupKey subExits pid).getD [] ≠ []) →
        (handleStart t subId subExits c pIsInit pid).1 = (lookupKey subExits pid).getD [] ∧
        (handleStart t subId subExits c pIsInit pid).2.running = t.running ∧
        (handleStart t subId subExits c pIsInit pid).2.runningExecs = t.runningExecs) ∧
      (pid ≠ 0 → (lookupKey subExits pid).getD [] = [] →
        (handleStart t subId subExits c pIsInit pid).1 = [] ∧
        lookupKey (handleStart t subId subExits c pIsInit pid).2.running pid =
          some ((lookupKey t.running pid).getD [] ++ [⟨c, pIsInit⟩]) ∧
        (∀ pid2, pid2 ≠ pid →
          lookupKey (handleStart t subId subExits c pIsInit pid).2.running pid2 =
            lookupKey t.running pid2) ∧
        (pIsInit = true →
          (handleStart t subId subExits c pIsInit pid).2.runningExecs = t.runningExecs) ∧
        (pIsInit = false →
          lookupCount (handleStart t subId subExits c pIsInit pid).2.runningExecs c =
            lookupCount t.runningExecs c + 1 ∧
          (∀ c2, c2 ≠ c →
            lookupKey (handleStart t subId subExits c pIsInit pid).2.runningExecs c2 =
              lookupKey t.runningExecs c2))) := by
  intro t subId subExits c pIsInit pid
  refine ⟨?_, ?_, ?_⟩
  · unfold handleStart
    by_cases h0 : pid = 0 ∨ (lookupKey subExits pid).getD [] ≠ [] <;>
      cases pIsInit <;> simp [h0]
  · intro h0
    unfold handleStart
    simp [h0]
  · intro hpid hempty
    have h0 : ¬(pid = 0 ∨ (lookupKey subExits pid).getD [] ≠ []) := by
      simp [hpid, hempty]
    cases pIsInit with
    | true =>
      have heq : handleStart t subId subExits c true pid =
          ([], { t with
            activeSubscriptions := removeKey t.activeSubscriptions subId
            running := setKey t.running pid
              ((lookupKey t.running pid).getD [] ++ [⟨c, true⟩]) }) := by
        simp [handleStart, h0]
      rw [heq]
      refine ⟨rfl, ?_, ?_, ?_, ?_⟩
      · exact lookupKey_setKey_self _ _ _
      · exact fun pid2 hne => lookupKey_setKey_ne _ _ _ _ hne
      · exact fun _ => rfl
      · intro hfalse
        exact Bool.noConfusion hfalse
    | false =>
      have heq : handleStart t subId subExits c false pid =
          ([], { t with
            activeSubscriptions := removeKey t.activeSubscriptions subId
            running := setKey t.running pid
              ((lookupKey t.running pid).getD [] ++ [⟨c, false⟩])
            runningExecs := setKey t.runningExecs c (lookupCount t.runningExecs c + 1) }) := by
        simp [handleStart, h0]
      rw [heq]
      refine ⟨rfl, ?_, ?_, ?_, ?_⟩
      · exact lookupKey_setKey_self _ _ _
      · exact fun pid2 hne => lookupKey_setKey_ne _ _ _ _ hne
      · intro htrue
        exact Bool.noConfusion htrue
      · intro _
        refine ⟨?_, ?_⟩
        · simp [lookupCount, lookupKey_setKey_self]
        · intro c2 hne
          exact lookupKey_setKey_ne _ _ _ _ hne

/-- Witness for C4: a concrete successful exec start (pid 7, no early
exits) appends one process and bumps the exec counter from 0 to 1. -/
theorem handleStart_contract_witness :
    ((7 : Int) ≠ 0) ∧
    (lookupKey ([] : ExitMap) 7).getD [] = [] ∧
    (handleStart ⟨[(1, [])], [], [], [], []⟩ 1 [] 4 false 7).1 = [] ∧
    lookupKey (handleStart ⟨[(1, [])], [], [], [], []⟩ 1 [] 4 false 7).2.running 7 =
      some ((lookupKey ([] : List (Int × List ContainerProcess)) 7).getD [] ++
        [⟨4, false⟩]) ∧
    lookupCount (handleStart ⟨[(1, [])], [], [], [], []⟩ 1 [] 4 false 7).2.runningExecs 4 =
      lookupCount [] 4 + 1 := by
  have h := (handleStart_contract ⟨[(1, [])], [], [], [], []⟩ 1 [] 4 false 7).2.2
    (by decide) (by decide)
  exact ⟨by decide, by decide, h.1, h.2.1, (h.2.2.2.2 rfl).1⟩

/-- C10: calling `NotifyExecExit` for a container whose exec counter
reads zero (entry absent or stored as zero) writes −1 into the map and
keeps that negative entry, closes no wait channel, and a subsequent
`ShouldDelayInitExit` for that container then reports a delay (with a
wait channel) even though no exec processes are running. -/
theorem notifyExecExit_underflow (t : ExitTrackerState) (c : Container)
    (h : lookupCount t.runningExecs c = 0) :
    lookupKey (notifyExecExit t c).runningExecs c = some (-1) ∧
    (notifyExecExit t c).execWaiters = t.execWaiters ∧
    (notifyExecExit t c).waiterClosed = t.waiterClosed ∧
    (shouldDelayInitExit (notifyExecExit t c) c).1 = true := by
  have hv : lookupCount t.runningExecs c - 1 = -1 := by omega
  have hne : (-1 : Int) ≠ 0 := by norm_num
  have heq : notifyExecExit t c =
      { t with runningExecs := setKey t.runningExecs c (-1) } := by
    simp [notifyExecExit, hv, hne]
  refine ⟨?_, by rw [heq], by rw [heq], ?_⟩
  · rw [heq]
    exact lookupKey_setKey_self _ _ _
  · have hl : lookupCount (notifyExecExit t c).runningExecs c = -1 := by
      rw [heq]
      simp [lookupCount, lookupKey_setKey_self]
    simp [shouldDelayInitExit, hl]

/-- Witness for C10 at a concrete tracker state with no exec-count
entry for container 3. -/
theorem notifyExecExit_underflow_witness :
    lookupKey (notifyExecExit ⟨[], [], [], [], []⟩ 3).runningExecs 3 = some (-1) ∧
    (notifyExecExit ⟨[], [], [], [], []⟩ 3).execWaiters = ([] : List Container) ∧
    (notifyExecExit ⟨[], [], [], [], []⟩ 3).waiterClosed = ([] : List Container) ∧
    (shouldDelayInitExit (notifyExecExit ⟨[], [], [], [], []⟩ 3) 3).1 = true :=
  notifyExecExit_underflow ⟨[], [], [], [], []⟩ 3 (by decide)

/-- Events in the exit-publication protocol of one container, as driven
by the guest TaskService handlers (spec §4.3 caller pattern): each
exec-exit handler publishes its TaskExit event and then calls
`NotifyExecExit`; the init-exit handler calls `ShouldDelayInitExit` and
publishes its TaskExit either immediately (no delay) or only after the
returned wait channel has been closed. -/
inductive PubEv
  | pubExec (i : Nat)
  | notifyExec (i : Nat)
  | shouldDelay
  | pubInit
deriving DecidableEq, Repr

/-- Scheduler-visible state of the exit-publication protocol: the
tracker state plus, per thread, how far its program has advanced. -/
structure PubState where
  track : ExitTrackerState
  published : List Nat
  notified : List Nat
  delayResult : Option Bool
  initPublished : Bool
deriving DecidableEq, Repr

/-- One atomic step of the exit-publication protocol for a container `c`
with execs `0..n-1`.  Guards encode program order: an exec's
`NotifyExecExit` runs only after its publication; the init publication
runs only after `ShouldDelayInitExit` returned no-delay or the wait
channel it returned was closed (`c ∈ waiterClosed`, which only
`notifyExecExit` does). -/
def pubStep (n : Nat) (c : Container) (s : PubState) : PubEv → Option PubState
  | .pubExec i =>
    if i < n ∧ i ∉ s.published then some { s with published := i :: s.published } else none
  | .notifyExec i =>
    if i ∈ s.published ∧ i ∉ s.notified then
      some { s with track := notifyExecExit s.track c, notified := i :: s.notified }
    else none
  | .shouldDelay =>
    if s.delayResult = none then
      some { s with
        delayResult := some (shouldDelayInitExit s.track c).1
        track := (shouldDelayInitExit s.track c).2 }
    else none
  | .pubInit =>
    match s.delayResult with
    | some false => if s.initPublished then none else some { s with initPublished := true }
    | some true =>
      if s.initPublished = false ∧ c ∈ s.track.waiterClosed then
        some { s with initPublished := true }
      else none
    | none => none

/-- Initial protocol state: `n` exec processes of container `c` are
running (so `HandleStart` has driven the exec counter to `n`; the map
entry is absent when `n = 0`), no event has happened yet. -/
def pubStart (n : Nat) (c : Container) : PubState :=
  { track := { activeSubscriptions := [], running := []
               runningExecs := if n = 0 then [] else [(c, (n : Int))]
               execWaiters := [], waiterClosed := [] }
    published := [], notified := [], delayResult := none, initPublished := false }

/-- Run a trace of protocol events; `none` means the scheduler proposed
an event whose guard does not hold, so the trace is not a real
interleaving. -/
def runPub (n : Nat) (c : Container) (s : PubState) : List PubEv → Option PubState
  | [] => some s
  | e :: rest =>
    match pubStep n c s e with
    | none => none
    | some s2 => runPub n c s2 rest

theorem runPub_append (n : Nat) (c : Container) (s sfin : PubState) (xs ys : List PubEv)
    (h : runPub n c s (xs ++ ys) = some sfin) :
    ∃ smid, runPub n c s xs = some smid ∧ runPub n c smid ys = some sfin := by
  induction xs generalizing s with
  | nil => exact ⟨s, rfl, h⟩
  | cons e rest ih =>
    rw [List.cons_append, runPub] at h
    rw [runPub]
    cases hstep : pubStep n c s e with
    | none => rw [hstep] at h; cases h
    | some s2 =>
      rw [hstep] at h
      exact ih s2 h

theorem nodup_list_complete (l : List Nat) (n : Nat) (hnodup : l.Nodup)
    (hlt : ∀ i ∈ l, i < n) (hlen : l.length = n) : ∀ i, i < n → i ∈ l := by
  intro i hi
  have hsub : l.toFinset ⊆ Finset.range n := by
    intro x hx
    exact Finset.mem_range.mpr (hlt x (List.mem_toFinset.mp hx))
  have hcard : l.toFinset.card = n := by
    rw [List.toFinset_card_of_nodup hnodup, hlen]
  have heq : l.toFinset = Finset.range n :=
    Finset.eq_of_subset_of_card_le hsub (by rw [hcard, Finset.card_range])
  have : i ∈ l.toFinset := heq ▸ Finset.mem_range.mpr hi
  exact List.mem_toFinset.mp this

theorem nodup_sub_length_lt (pub notif : List Nat) (n : Nat) (hpub_lt : ∀ i ∈ pub, i < n)
    (hpub_nodup : pub.Nodup) (hnot_nodup : notif.Nodup) (hsub : ∀ i ∈ notif, i ∈ pub)
    (i : Nat) (hip : i ∈ pub) (hin : i ∉ notif) : notif.length < n := by
  have hfsub : notif.toFinset ⊆ pub.toFinset := by
    intro x hx
    exact List.mem_toFinset.mpr (hsub x (List.mem_toFinset.mp hx))
  have hss : notif.toFinset ⊂ pub.toFinset := by
    refine Finset.ssubset_iff_of_subset hfsub |>.mpr ?_
    exact ⟨i, List.mem_toFinset.mpr hip, fun hmem => hin (List.mem_toFinset.mp hmem)⟩
  have h1 : notif.toFinset.card < pub.toFinset.card := Finset.card_lt_card hss
  have h2 : pub.toFinset ⊆ Finset.range n := by
    intro x hx
    exact Finset.mem_range.mpr (hpub_lt x (List.mem_toFinset.mp hx))
  have h3 : pub.toFinset.card ≤ n := by
    simpa using Finset.card_le_card h2
  rw [List.toFinset_card_of_nodup hnot_nodup] at h1
  omega

/-- Inductive invariant of the exit-publication protocol, tying each
reachable scheduler state to the trace that produced it. -/
structure PubInv (n : Nat) (c : Container) (tr : List PubEv) (s : PubState) : Prop where
  pub_lt : ∀ i ∈ s.published, i < n
  pub_in_tr : ∀ i ∈ s.published, PubEv.pubExec i ∈ tr
  pub_nodup : s.published.Nodup
  not_nodup : s.notified.Nodup
  not_sub : ∀ i ∈ s.notified, i ∈ s.published
  count_eq : lookupCount s.track.runningExecs c = (n : Int) - s.notified.length
  closed_full : c ∈ s.track.waiterClosed → s.notified.length = n
  delay_full : s.delayResult = some false → s.notified.length = n
  len_le : s.notified.length ≤ n

theorem notifyExecExit_spec (t : ExitTrackerState) (c : Container) :
    lookupCount (notifyExecExit t c).runningExecs c =
      (if lookupCount t.runningExecs c - 1 = 0 then 0
       else lookupCount t.runningExecs c - 1) ∧
    ((c ∈ (notifyExecExit t c).waiterClosed) ↔
      ((lookupCount t.runningExecs c - 1 = 0 ∧ c ∈ t.execWaiters) ∨
        c ∈ t.waiterClosed)) := by
  simp only [notifyExecExit]
  split_ifs with h1 h2
  · refine ⟨?_, ?_⟩
    · simp [lookupCount, lookupKey_removeKey]
    · simp [h1, h2]
  · refine ⟨?_, ?_⟩
    · simp [lookupCount, lookupKey_removeKey]
    · simp [h1, h2]
  · refine ⟨?_, ?_⟩
    · simp [lookupCount, lookupKey_setKey_self]
    · simp [h1]

theorem pubInv_mono (n : Nat) (c : Container) (tr : List PubEv) (e : PubEv) (s : PubState)
    (h : PubInv n c tr s) : PubInv n c (tr ++ [e]) s where
  pub_lt := h.pub_lt
  pub_in_tr := fun i hi => List.mem_append_left _ (h.pub_in_tr i hi)
  pub_nodup := h.pub_nodup
  not_nodup := h.not_nodup
  not_sub := h.not_sub
  count_eq := h.count_eq
  closed_full := h.closed_full
  delay_full := h.delay_full
  len_le := h.len_le

theorem pubStep_inv (n : Nat) (c : Container) (tr : List PubEv) (e : PubEv)
    (s s2 : PubState) (hinv : PubInv n c tr s) (hstep : pubStep n c s e = some s2) :
    PubInv n c (tr ++ [e]) s2 := by
  have hm := pubInv_mono n c tr e s hinv
  cases e with
  | pubExec i =>
    simp only [pubStep] at hstep
    split_ifs at hstep with hg
    obtain ⟨hlt, hnotmem⟩ := hg
    replace hstep := Option.some.inj hstep
    subst hstep
    refine
      { pub_lt := ?_
        pub_in_tr := ?_
        pub_nodup := ?_
        not_nodup := hm.not_nodup
        not_sub := ?_
        count_eq := hm.count_eq
        closed_full := hm.closed_full
        delay_full := hm.delay_full
        len_le := hm.len_le }
    · intro j hj
      rcases List.mem_cons.mp hj with hj | hj
      · exact hj ▸ hlt
      · exact hm.pub_lt j hj
    · intro j hj
      rcases List.mem_cons.mp hj with hj | hj
      · subst hj
        exact List.mem_append_right _ (List.mem_singleton.mpr rfl)
      · exact hm.pub_in_tr j hj
    · exact List.nodup_cons.mpr ⟨hnotmem, hm.pub_nodup⟩
    · intro j hj
      exact List.mem_cons_of_mem i (hm.not_sub j hj)
  | notifyExec i =>
    simp only [pubStep] at hstep
    split_ifs at hstep with hg
    obtain ⟨hipub, hinot⟩ := hg
    replace hstep := Option.some.inj hstep
    subst hstep
    have hlen_lt : s.notified.length < n :=
      nodup_sub_length_lt s.published s.notified n hinv.pub_lt hinv.pub_nodup
        hinv.not_nodup hinv.not_sub i hipub hinot
    have hspec := notifyExecExit_spec s.track c
    have hcnt := hinv.count_eq
    refine
      { pub_lt := hm.pub_lt
        pub_in_tr := hm.pub_in_tr
        pub_nodup := hm.pub_nodup
        not_nodup := ?_
        not_sub := ?_
        count_eq := ?_
        closed_full := ?_
        delay_full := ?_
        len_le := ?_ }
    · exact List.nodup_cons.mpr ⟨hinot, hm.not_nodup⟩
    · intro j hj
      rcases List.mem_cons.mp hj with hj | hj
      · exact hj ▸ hipub
      · exact hm.not_sub j hj
    · show lookupCount (notifyExecExit s.track c).runningExecs c =
        (n : Int) - (i :: s.notified).length
      rw [hspec.1, List.length_cons]
      push_cast
      split <;> omega
    · intro hcl
      show (i :: s.notified).length = n
      rcases hspec.2.mp hcl with ⟨hz, -⟩ | hold
      · rw [List.length_cons]
        omega
      · exact absurd (hm.closed_full hold) (by omega)
    · intro hd
      exact absurd (hm.delay_full hd) (by omega)
    · show (i :: s.notified).length ≤ n
      rw [List.length_cons]
      omega
  | shouldDelay =>
    simp only [pubStep] at hstep
    split_ifs at hstep with hg
    replace hstep := Option.some.inj hstep
    subst hstep
    by_cases hc : lookupCount s.track.runningExecs c = 0
    · have hr : shouldDelayInitExit s.track c =
          (false, { s.track with runningExecs := removeKey s.track.runningExecs c }) := by
        simp [shouldDelayInitExit, hc]
      have hlen : s.notified.length = n := by
        have := hinv.count_eq
        omega
      refine
        { pub_lt := hm.pub_lt
          pub_in_tr := hm.pub_in_tr
          pub_nodup := hm.pub_nodup
          not_nodup := hm.not_nodup
          not_sub := hm.not_sub
          count_eq := ?_
          closed_full := ?_
          delay_full := ?_
          len_le := hm.len_le }
      · show lookupCount (shouldDelayInitExit s.track c).2.runningExecs c =
          (n : Int) - s.notified.length
        rw [hr]
        simp only [lookupCount, lookupKey_removeKey, Option.getD_none]
        omega
      · intro hcl
        show s.notified.length = n
        exact hlen
      · intro _
        exact hlen
    · have hr : shouldDelayInitExit s.track c =
          (true, { s.track with execWaiters := c :: s.track.execWaiters }) := by
        simp [shouldDelayInitExit, hc]
      refine
        { pub_lt := hm.pub_lt
          pub_in_tr := hm.pub_in_tr
          pub_nodup := hm.pub_nodup
          not_nodup := hm.not_nodup
          not_sub := hm.not_sub
          count_eq := ?_
          closed_full := ?_
          delay_full := ?_
          len_le := hm.len_le }
      · show lookupCount (shouldDelayInitExit s.track c).2.runningExecs c =
          (n : Int) - s.notified.length
        rw [hr]
        exact hm.count_eq
      · intro hcl
        rw [hr] at hcl
        exact hm.closed_full hcl
      · intro hd
        rw [hr] at hd
        simp at hd
  | pubInit =>
    simp only [pubStep] at hstep
    cases hd : s.delayResult with
    | none =>
      rw [hd] at hstep
      cases hstep
    | some b =>
      rw [hd] at hstep
      cases b with
      | false =>
        replace hstep : (if s.initPublished = true then none else
            some { s with delayResult := some false, initPublished := true }) = some s2 :=
          hstep
        split_ifs at hstep
        replace hstep := Option.some.inj hstep
        subst hstep
        exact
          { pub_lt := hm.pub_lt
            pub_in_tr := hm.pub_in_tr
            pub_nodup := hm.pub_nodup
            not_nodup := hm.not_nodup
            not_sub := hm.not_sub
            count_eq := hm.count_eq
            closed_full := hm.closed_full
            delay_full := fun _ => hm.delay_full hd
            len_le := hm.len_le }
      | true =>
        replace hstep : (if s.initPublished = false ∧ c ∈ s.track.waiterClosed then
            some { s with delayResult := some true, initPublished := true } else none) =
            some s2 :=
          hstep
        split_ifs at hstep
        replace hstep := Option.some.inj hstep
        subst hstep
        exact
          { pub_lt := hm.pub_lt
            pub_in_tr := hm.pub_in_tr
            pub_nodup := hm.pub_nodup
            not_nodup := hm.not_nodup
            not_sub := hm.not_sub
            count_eq := hm.count_eq
            closed_full := hm.closed_full
            delay_full := fun h2 => absurd h2 (by simp)
            len_le := hm.len_le }

theorem runPub_inv (n : Nat) (c : Container) :
    ∀ (tr tr0 : List PubEv) (s sfin : PubState),
      PubInv n c tr0 s → runPub n c s tr = some sfin → PubInv n c (tr0 ++ tr) sfin := by
  intro tr
  induction tr with
  | nil =>
    intro tr0 s sfin hinv h
    rw [runPub] at h
    replace h := Option.some.inj h
    subst h
    simpa using hinv
  | cons e rest ih =>
    intro tr0 s sfin hinv h
    rw [runPub] at h
    cases hstep : pubStep n c s e with
    | none =>
      rw [hstep] at h
      cases h
    | some s1 =>
      rw [hstep] at h
      have h1 := pubStep_inv n c tr0 e s s1 hinv hstep
      have h2 := ih (tr0 ++ [e]) s1 sfin h1 h
      simpa [List.append_assoc] using h2

theorem pubStart_inv (n : Nat) (c : Container) : PubInv n c [] (pubStart n c) := by
  refine
    { pub_lt := by simp [pubStart]
      pub_in_tr := by simp [pubStart]
      pub_nodup := by simp [pubStart]
      not_nodup := by simp [pubStart]
      not_sub := by simp [pubStart]
      count_eq := ?_
      closed_full := by simp [pubStart]
      delay_full := by simp [pubStart]
      len_le := by simp [pubStart] }
  by_cases hn : n = 0
  · simp [pubStart, hn, lookupCount, lookupKey]
  · simp [pubStart, hn, lookupCount, lookupKey]

/-- C2: the mechanism and the ordering of exit publication.
`ShouldDelayInitExit` reports no delay exactly when the container's exec
counter reads zero, in which case it drops the counter entry; otherwise
it reports a delay and registers a wait channel.  `NotifyExecExit`
closes a registered (not yet closed) wait channel exactly when the
counter it decrements reaches zero.  Consequently, in every valid
interleaving of the publication protocol (each exec-exit handler
publishes then calls `NotifyExecExit`; the init-exit handler consults
`ShouldDelayInitExit` and, when delayed, waits for the channel to be
closed before publishing), the init TaskExit publication occurs strictly
after every exec TaskExit publication. -/
theorem initExit_published_after_execExits :
    (∀ (t : ExitTrackerState) (c : Container),
      ((shouldDelayInitExit t c).1 = false ↔ lookupCount t.runningExecs c = 0) ∧
      (lookupCount t.runningExecs c = 0 →
        lookupKey (shouldDelayInitExit t c).2.runningExecs c = none) ∧
      (lookupCount t.runningExecs c ≠ 0 →
        (shouldDelayInitExit t c).1 = true ∧
        c ∈ (shouldDelayInitExit t c).2.execWaiters)) ∧
    (∀ (t : ExitTrackerState) (c : Container), c ∈ t.execWaiters → c ∉ t.waiterClosed →
      (c ∈ (notifyExecExit t c).waiterClosed ↔ lookupCount t.runningExecs c - 1 = 0)) ∧
    (∀ (n : Nat) (c : Container) (xs ys : List PubEv) (sfin : PubState),
      runPub n c (pubStart n c) (xs ++ PubEv.pubInit :: ys) = some sfin →
      ∀ i, i < n → PubEv.pubExec i ∈ xs) := by
  refine ⟨?_, ?_, ?_⟩
  · intro t c
    refine ⟨⟨?_, ?_⟩, ?_, ?_⟩
    · intro h
      by_contra hc
      simp [shouldDelayInitExit, hc] at h
    · intro h
      simp [shouldDelayInitExit, h]
    · intro h
      simp [shouldDelayInitExit, h, lookupKey_removeKey]
    · intro h
      simp [shouldDelayInitExit, h]
  · intro t c hw hnc
    have hspec := (notifyExecExit_spec t c).2
    constructor
    · intro h
      rcases hspec.mp h with ⟨hz, -⟩ | hold
      · exact hz
      · exact absurd hold hnc
    · intro hz
      exact hspec.mpr (Or.inl ⟨hz, hw⟩)
  · intro n c xs ys sfin h i hi
    obtain ⟨s1, hxs, hrest⟩ := runPub_append n c _ sfin xs (PubEv.pubInit :: ys) h
    have hinv1 : PubInv n c xs s1 := by
      simpa using runPub_inv n c xs [] (pubStart n c) s1 (pubStart_inv n c) hxs
    rw [runPub] at hrest
    cases hstep : pubStep n c s1 .pubInit with
    | none =>
      rw [hstep] at hrest
      cases hrest
    | some s2 =>
      have hlen : s1.notified.length = n := by
        cases hd : s1.delayResult with
        | none =>
          simp only [pubStep, hd] at hstep
          cases hstep
        | some b =>
          cases b with
          | false => exact hinv1.delay_full hd
          | true =>
            simp only [pubStep, hd] at hstep
            split_ifs at hstep with hguard
            exact hinv1.closed_full hguard.2
      have hmem : i ∈ s1.notified :=
        nodup_list_complete s1.notified n hinv1.not_nodup
          (fun j hj => hinv1.pub_lt j (hinv1.not_sub j hj)) hlen i hi
      exact hinv1.pub_in_tr i (hinv1.not_sub i hmem)

/-- Witness for C2: a one-exec container run through the full protocol,
and the two mechanism facts at concrete tracker states. -/
theorem initExit_published_after_execExits_witness :
    runPub 1 0 (pubStart 1 0)
      ([PubEv.pubExec 0, PubEv.notifyExec 0, PubEv.shouldDelay] ++ PubEv.pubInit :: []) =
      some ({ track := { activeSubscriptions := []
                         running := []
                         runningExecs := []
                         execWaiters := []
                         waiterClosed := [] }
              published := [0]
              notified := [0]
              delayResult := some false
              initPublished := true } : PubState) ∧
    PubEv.pubExec 0 ∈ [PubEv.pubExec 0, PubEv.notifyExec 0, PubEv.shouldDelay] ∧
    ((shouldDelayInitExit ⟨[], [], [(0, 1)], [], []⟩ 0).1 = true ∧
      0 ∈ (shouldDelayInitExit ⟨[], [], [(0, 1)], [], []⟩ 0).2.execWaiters) ∧
    (0 ∈ (notifyExecExit ⟨[], [], [(0, 1)], [0], []⟩ 0).waiterClosed ↔
      lookupCount ([(0, 1)] : List (Container × Int)) 0 - 1 = 0) := by
  have hrun : runPub 1 0 (pubStart 1 0)
      ([PubEv.pubExec 0, PubEv.notifyExec 0, PubEv.shouldDelay] ++ PubEv.pubInit :: []) =
      some ({ track := { activeSubscriptions := []
                         running := []
                         runningExecs := []
                         execWaiters := []
                         waiterClosed := [] }
              published := [0]
              notified := [0]
              delayResult := some false
              initPublished := true } : PubState) := by decide
  refine ⟨hrun, ?_, ?_, ?_⟩
  · exact initExit_published_after_execExits.2.2 1 0
      [PubEv.pubExec 0, PubEv.notifyExec 0, PubEv.shouldDelay] [] _ hrun 0
      (by decide)
  · exact (initExit_published_after_execExits.1 ⟨[], [], [(0, 1)], [], []⟩ 0).2.2 (by decide)
  · exact initExit_published_after_execExits.2.1 ⟨[], [], [(0, 1)], [0], []⟩ 0 (by decide)
      (by decide)

/-- Model of one subscriber's buffered channel (capacity
`subscriberChannelBuffer`): `pending` counts chunks currently queued,
`delivered` records every chunk ever enqueued (in order), `dropped`
counts sends lost to the non-blocking `select`/`default` branch of
`fanOutReader`. -/
structure SubChannel where
  pending : Nat
  delivered : List OutputData
  dropped : Nat
deriving DecidableEq, Repr

/-- The non-blocking send `select { case sub.ch <- data: default: }` in
`fanOutReader` (`manager.go:177` and `manager.go:199`): enqueue when the
channel has room, otherwise drop the chunk. -/
def chanTrySend (cap : Nat) (q : SubChannel) (d : OutputData) : SubChannel :=
  if q.pending < cap then
    { q with pending := q.pending + 1, delivered := q.delivered ++ [d] }
  else
    { q with dropped := q.dropped + 1 }

/-- The subscriber dequeuing `k` chunks between fan-out sends. -/
def chanConsume (q : SubChannel) (k : Nat) : SubChannel :=
  { q with pending := q.pending - k }

/-- One iteration of the `fanOutReader` read loop (`manager.go:165`),
restricted to one subscriber: the scheduler lets the consumer dequeue
`ev.1` chunks, then the reader's non-blocking send of the read data
happens — only for a non-zero read, mirroring `if n > 0`. -/
def fanOutChunkStep (cap : Nat) (q : SubChannel) (ev : Nat × List Nat) : SubChannel :=
  let q1 := chanConsume q ev.1
  if ev.2.length > 0 then chanTrySend cap q1 ⟨ev.2, false⟩ else q1

/-- Embeds `fanOutReader` for one subscriber attached for the whole
stream: process every read result, then (on the reader's error/EOF) send
the EOF chunk, again non-blockingly, after the consumer dequeued
`finalConsume` chunks. -/
def fanOutRun (cap : Nat) (events : List (Nat × List Nat)) (finalConsume : Nat) :
    SubChannel :=
  let q := events.foldl (fanOutChunkStep cap) ⟨0, [], 0⟩
  chanTrySend cap (chanConsume q finalConsume) ⟨[], true⟩

/-- What a subscriber observes on its queue: enqueued chunks, then the
channel close. -/
inductive SubMsg
  | chunk (d : OutputData)
  | closed
deriving DecidableEq, Repr

/-- The subscriber-visible trace across `Unregister`
(`manager.go:224`): `Unregister` closes the subscriber's channel only
after `pio.wg.Wait()` has observed the fan-out task finish, so the close
follows every enqueued chunk. -/
def unregisterTrace (cap : Nat) (events : List (Nat × List Nat)) (finalConsume : Nat) :
    List SubMsg :=
  ((fanOutRun cap events finalConsume).delivered.map SubMsg.chunk) ++ [SubMsg.closed]

/-- The data chunks a fully attached subscriber should see: one chunk
per non-zero read, in order. -/
def nonEmptyChunks : List (List Nat) → List OutputData
  | [] => []
  | b :: rest =>
    if b.length > 0 then ⟨b, false⟩ :: nonEmptyChunks rest else nonEmptyChunks rest

theorem chanTrySend_dropped_le (cap : Nat) (q : SubChannel) (d : OutputData) :
    q.dropped ≤ (chanTrySend cap q d).dropped := by
  unfold chanTrySend
  split_ifs <;> simp

theorem fanOutChunkStep_dropped_le (cap : Nat) (q : SubChannel) (ev : Nat × List Nat) :
    q.dropped ≤ (fanOutChunkStep cap q ev).dropped := by
  unfold fanOutChunkStep
  split_ifs with h
  · exact chanTrySend_dropped_le cap (chanConsume q ev.1) ⟨ev.2, false⟩
  · simp [chanConsume]

theorem foldl_fanOut_dropped_le (cap : Nat) :
    ∀ (events : List (Nat × List Nat)) (q : SubChannel),
      q.dropped ≤ (events.foldl (fanOutChunkStep cap) q).dropped := by
  intro events
  induction events with
  | nil => intro q; simp
  | cons ev rest ih =>
    intro q
    calc q.dropped ≤ (fanOutChunkStep cap q ev).dropped :=
          fanOutChunkStep_dropped_le cap q ev
      _ ≤ _ := by simpa using ih (fanOutChunkStep cap q ev)

theorem foldl_fanOut_delivered (cap : Nat) :
    ∀ (events : List (Nat × List Nat)) (q : SubChannel),
      (events.foldl (fanOutChunkStep cap) q).dropped = q.dropped →
      (events.foldl (fanOutChunkStep cap) q).delivered =
        q.delivered ++ nonEmptyChunks (events.map Prod.snd) := by
  intro events
  induction events with
  | nil =>
    intro q _
    simp [nonEmptyChunks]
  | cons ev rest ih =>
    intro q h
    rw [List.foldl_cons] at h ⊢
    by_cases hb : ev.2.length > 0
    · have hstep : fanOutChunkStep cap q ev = chanTrySend cap (chanConsume q ev.1) ⟨ev.2, false⟩ := by
        simp [fanOutChunkStep, hb]
      rw [hstep] at h ⊢
      by_cases hsend : (chanConsume q ev.1).pending < cap
      · have hsent : chanTrySend cap (chanConsume q ev.1) ⟨ev.2, false⟩ =
            { pending := (chanConsume q ev.1).pending + 1
              delivered := (chanConsume q ev.1).delivered ++ [⟨ev.2, false⟩]
              dropped := (chanConsume q ev.1).dropped } := by
          simp [chanTrySend, hsend]
        rw [hsent] at h ⊢
        rw [ih _ (by simpa [chanConsume] using h)]
        simp [chanConsume, nonEmptyChunks, hb, List.map_cons]
      · have hdrop : chanTrySend cap (chanConsume q ev.1) ⟨ev.2, false⟩ =
            { pending := (chanConsume q ev.1).pending
              delivered := (chanConsume q ev.1).delivered
              dropped := (chanConsume q ev.1).dropped + 1 } := by
          simp [chanTrySend, hsend]
        rw [hdrop] at h
        have hmono := foldl_fanOut_dropped_le cap rest
          { pending := (chanConsume q ev.1).pending
            delivered := (chanConsume q ev.1).delivered
            dropped := (chanConsume q ev.1).dropped + 1 }
        simp only [chanConsume] at h hmono
        omega
    · have hstep : fanOutChunkStep cap q ev = chanConsume q ev.1 := by
        simp [fanOutChunkStep, hb]
      rw [hstep] at h ⊢
      rw [ih _ (by simpa [chanConsume] using h)]
      simp [chanConsume, nonEmptyChunks, hb]

theorem nonEmptyChunks_shape (bs : List (List Nat)) :
    ∀ d ∈ nonEmptyChunks bs, d.eof = false ∧ d.data ≠ [] := by
  induction bs with
  | nil => simp [nonEmptyChunks]
  | cons b rest ih =>
    intro d hd
    rw [nonEmptyChunks] at hd
    split_ifs at hd with hb
    · rcases List.mem_cons.mp hd with hd | hd
      · subst hd
        exact ⟨rfl, by simpa using List.length_pos.mp hb⟩
      · exact ih d hd
    · exact ih d hd

/-- The EOF marker chunk `OutputData{EOF: true}`. -/
def eofChunk : OutputData := ⟨[], true⟩

/-- C1 (amended): whenever the subscriber drains fast enough that no
non-blocking send is dropped, its queue receives exactly the stream's
non-empty chunks in order followed by exactly one EOF chunk; the EOF
chunk is the last chunk enqueued, and the close performed by
`Unregister` comes strictly after it on the subscriber-visible trace. -/
theorem fanOut_eof_delivery (events : List (Nat × List Nat)) (finalConsume : Nat)
    (h : (fanOutRun subscriberChannelBuffer events finalConsume).dropped = 0) :
    (fanOutRun subscriberChannelBuffer events finalConsume).delivered =
      nonEmptyChunks (events.map Prod.snd) ++ [eofChunk] ∧
    (∀ d ∈ nonEmptyChunks (events.map Prod.snd), d.eof = false ∧ d.data ≠ []) ∧
    ((fanOutRun subscriberChannelBuffer events finalConsume).delivered.countP
      (fun d => d.eof)) = 1 ∧
    unregisterTrace subscriberChannelBuffer events finalConsume =
      ((nonEmptyChunks (events.map Prod.snd) ++ [eofChunk]).map SubMsg.chunk) ++
        [SubMsg.closed] := by
  have h1 : (events.foldl (fanOutChunkStep subscriberChannelBuffer) ⟨0, [], 0⟩).dropped ≤
      (fanOutRun subscriberChannelBuffer events finalConsume).dropped := by
    unfold fanOutRun
    simpa [chanConsume] using
      chanTrySend_dropped_le subscriberChannelBuffer
        (chanConsume (events.foldl (fanOutChunkStep subscriberChannelBuffer) ⟨0, [], 0⟩)
          finalConsume) ⟨[], true⟩
  have hQ0 : (events.foldl (fanOutChunkStep subscriberChannelBuffer) ⟨0, [], 0⟩).dropped
      = 0 := by omega
  have hdel : (events.foldl (fanOutChunkStep subscriberChannelBuffer) ⟨0, [], 0⟩).delivered
      = nonEmptyChunks (events.map Prod.snd) := by
    simpa using foldl_fanOut_delivered subscriberChannelBuffer events ⟨0, [], 0⟩ (by
      simpa using hQ0)
  have hsend : (events.foldl (fanOutChunkStep subscriberChannelBuffer) ⟨0, [], 0⟩).pending
      - finalConsume < subscriberChannelBuffer := by
    by_contra hc
    have hdrop2 : (fanOutRun subscriberChannelBuffer events finalConsume).dropped =
        (events.foldl (fanOutChunkStep subscriberChannelBuffer) ⟨0, [], 0⟩).dropped + 1 := by
      unfold fanOutRun
      simp [chanTrySend, chanConsume, hc]
    omega
  have hfinal : (fanOutRun subscriberChannelBuffer events finalConsume).delivered =
      (events.foldl (fanOutChunkStep subscriberChannelBuffer) ⟨0, [], 0⟩).delivered ++
        [eofChunk] := by
    unfold fanOutRun
    simp [chanTrySend, chanConsume, hsend, eofChunk]
  have hmain : (fanOutRun subscriberChannelBuffer events finalConsume).delivered =
      nonEmptyChunks (events.map Prod.snd) ++ [eofChunk] := by
    rw [hfinal, hdel]
  refine ⟨hmain, nonEmptyChunks_shape (events.map Prod.snd), ?_, ?_⟩
  · rw [hmain, List.countP_append]
    have hz : (nonEmptyChunks (events.map Prod.snd)).countP (fun d => d.eof) = 0 := by
      rw [List.countP_eq_zero]
      intro d hd
      simp [(nonEmptyChunks_shape (events.map Prod.snd) d hd).1]
    simp [hz, eofChunk]
  · rw [unregisterTrace, hmain]

set_option maxRecDepth 10000 in
/-- Counterexample to C1 as stated: a subscriber that never dequeues
(all schedule entries zero) while the stream produces 65 one-byte reads
has a full channel when the fan-out sends EOF, so the EOF chunk is
dropped by the non-blocking send: the queue receives 64 data chunks and
zero EOF chunks, and two sends (the 65th chunk and the EOF) are lost. -/
theorem fanOut_eof_dropped_counterexample :
    ((fanOutRun subscriberChannelBuffer (List.replicate 65 (0, [0])) 0).delivered.countP
      (fun d => d.eof)) = 0 ∧
    (fanOutRun subscriberChannelBuffer (List.replicate 65 (0, [0])) 0).delivered.length
      = 64 ∧
    (fanOutRun subscriberChannelBuffer (List.replicate 65 (0, [0])) 0).dropped = 2 := by
  decide

/-- Witness for the amended C1 at a concrete two-read stream with an
attentive subscriber. -/
theorem fanOut_eof_delivery_witness :
    (fanOutRun subscriberChannelBuffer [(0, [1, 2]), (0, [])] 0).dropped = 0 ∧
    (fanOutRun subscriberChannelBuffer [(0, [1, 2]), (0, [])] 0).delivered =
      nonEmptyChunks ([(0, [1, 2]), (0, [])].map Prod.snd) ++ [eofChunk] ∧
    ((fanOutRun subscriberChannelBuffer [(0, [1, 2]), (0, [])] 0).delivered.countP
      (fun d => d.eof)) = 1 := by
  have h0 : (fanOutRun subscriberChannelBuffer [(0, [1, 2]), (0, [])] 0).dropped = 0 := by
    decide
  have h := fanOut_eof_delivery [(0, [1, 2]), (0, [])] 0 h0
  exact ⟨h0, h.1, h.2.2.1⟩

/-- A file-system path as its list of clean components;
`filepath.Base` is the last component and `filepath.Dir` drops it
(faithful for the cleaned absolute paths the shim passes around). -/
abbrev FsPath := List String

/-- Go `filepath.Base` on a clean path (`"."` for the empty path). -/
def fsBase (p : FsPath) : String := p.getLast?.getD "."

/-- Go `filepath.Dir` on a clean path: drop the last component. -/
def fsDir (p : FsPath) : FsPath := p.dropLast

/-- An OCI mount entry, embedding the `specs.Mount` fields
`TransformBindMounts` reads or writes. -/
structure Mount where
  destination : String
  mtype : String
  source : FsPath
  options : List String
deriving DecidableEq, Repr

/-- Embeds Go `(*Bundle).AddExtraFile` (`bundle.go`): reject the empty
name, `config.json`, and names with path separators or relative
components (the `filepath.Clean`/`filepath.Base` checks, which for
slash-free names reduce to excluding `.` and `..`); otherwise store the
file, overwriting an existing entry of the same name. -/
def addExtraFile (files : List (String × List Nat)) (name : String) (data : List Nat) :
    Except String (List (String × List Nat)) :=
  if name = "" then .error "file name cannot be empty"
  else if name = "config.json" then .error "cannot override config.json"
  else if name.toList.contains (Char.ofNat 47) ∨ name = "." ∨ name = ".." then
    .error "file name must not contain path separators or relative components"
  else .ok (setKey files name data)

/-- The condition under which Go `TransformBindMounts`
(`transform/bundle.go:22`) inlines a mount: the mount type is `bind` and
`filepath.Base(filepath.Dir(m.Source)) == filepath.Base(b.Path)` — a
comparison of base names only. -/
def inlineCondGo (bundlePath : FsPath) (m : Mount) : Prop :=
  m.mtype = "bind" ∧ fsBase (fsDir m.source) = fsBase bundlePath

instance (bundlePath : FsPath) (m : Mount) : Decidable (inlineCondGo bundlePath m) := by
  unfold inlineCondGo
  exact instDecidableAnd

/-- Embeds Go `TransformBindMounts` (`transform/bundle.go:22`): for each
mount of type `bind` whose source's parent-directory base name equals
the bundle directory's base name, read the source file (a read failure
aborts the transform), rewrite the mount source to the bare filename and
add the contents as an extra file; every other mount is skipped. -/
def transformBindMounts (readFile : FsPath → Option (List Nat)) (bundlePath : FsPath) :
    List Mount → List (String × List Nat) →
    Except String (List Mount × List (String × List Nat))
  | [], files => .ok ([], files)
  | m :: rest, files =>
    if m.mtype = "bind" then
      if fsBase (fsDir m.source) ≠ fsBase bundlePath then
        Except.map (fun p => (m :: p.1, p.2))
          (transformBindMounts readFile bundlePath rest files)
      else
        Option.elim (readFile m.source) (.error "failed to read mount file") (fun buf =>
          Except.bind (addExtraFile files (fsBase m.source) buf) (fun files2 =>
            Except.map (fun p => ({ m with source := [fsBase m.source] } :: p.1, p.2))
              (transformBindMounts readFile bundlePath rest files2)))
    else
      Except.map (fun p => (m :: p.1, p.2))
        (transformBindMounts readFile bundlePath rest files)

theorem lookupKey_setKey_isSome {α β : Type} [DecidableEq α] (m : List (α × β))
    (key name : α) (v : β) :
    (lookupKey (setKey m key v) name).isSome ↔ (lookupKey m name).isSome ∨ name = key := by
  by_cases h : name = key
  · subst h
    simp [lookupKey_setKey_self]
  · simp [lookupKey_setKey_ne m key name v h, h]

theorem addExtraFile_ok (files : List (String × List Nat)) (name : String)
    (data : List Nat) (files2 : List (String × List Nat))
    (h : addExtraFile files name data = .ok files2) :
    files2 = setKey files name data := by
  unfold addExtraFile at h
  split_ifs at h
  exact (Except.ok.inj h).symm

/-- C8 (amended): on success, `TransformBindMounts` rewrites a mount's
source to the bare filename and inlines the file if and only if the
mount has type `bind` and the BASE NAME of the source's parent directory
equals the BASE NAME of the bundle directory (the code compares
`filepath.Base` values, not the directories themselves); every other
mount is returned unchanged, and the extra-file set gains exactly the
base names of the inlined mounts. -/
theorem transformBindMounts_cond (rf : FsPath → Option (List Nat)) (bp : FsPath) :
    ∀ (ms : List Mount) (fs0 : List (String × List Nat)) (ms2 : List Mount)
      (fs2 : List (String × List Nat)),
      transformBindMounts rf bp ms fs0 = .ok (ms2, fs2) →
      ms2 = ms.map (fun m =>
        if inlineCondGo bp m then { m with source := [fsBase m.source] } else m) ∧
      (∀ name, (lookupKey fs2 name).isSome ↔
        ((lookupKey fs0 name).isSome ∨
          ∃ m ∈ ms, inlineCondGo bp m ∧ fsBase m.source = name)) := by
  intro ms
  induction ms with
  | nil =>
    intro fs0 ms2 fs2 h
    rw [transformBindMounts] at h
    replace h := Except.ok.inj h
    injection h with h1 h2
    subst h1
    subst h2
    exact ⟨by simp, fun name => by simp⟩
  | cons m rest ih =>
    intro fs0 ms2 fs2 h
    rw [transformBindMounts] at h
    by_cases hb : m.mtype = "bind"
    · by_cases hne : fsBase (fsDir m.source) ≠ fsBase bp
      · rw [if_pos hb, if_pos hne] at h
        cases hrec : transformBindMounts rf bp rest fs0 with
        | error e =>
          rw [hrec] at h
          simp [Except.map] at h
        | ok p =>
          rw [hrec] at h
          simp only [Except.map] at h
          replace h := Except.ok.inj h
          injection h with hm hf
          have hcond : ¬inlineCondGo bp m := fun hc => hne hc.2
          obtain ⟨ihm, ihf⟩ := ih fs0 p.1 p.2 (by rw [hrec])
          constructor
          · rw [← hm, List.map_cons, if_neg hcond, ihm]
          · intro name
            rw [← hf, ihf name]
            constructor
            · rintro (h0 | ⟨m2, hm2, hc2, hn2⟩)
              · exact Or.inl h0
              · exact Or.inr ⟨m2, List.mem_cons_of_mem m hm2, hc2, hn2⟩
            · rintro (h0 | ⟨m2, hm2, hc2, hn2⟩)
              · exact Or.inl h0
              · rcases List.mem_cons.mp hm2 with hm2 | hm2
                · exact absurd (hm2 ▸ hc2) hcond
                · exact Or.inr ⟨m2, hm2, hc2, hn2⟩
      · push_neg at hne
        rw [if_pos hb, if_neg (by simpa using hne)] at h
        cases hrf : rf m.source with
        | none =>
          rw [hrf] at h
          simp [Option.elim] at h
        | some buf =>
          rw [hrf] at h
          simp only [Option.elim] at h
          cases hadd : addExtraFile fs0 (fsBase m.source) buf with
          | error e =>
            rw [hadd] at h
            simp [Except.bind] at h
          | ok files2 =>
            rw [hadd] at h
            simp only [Except.bind] at h
            cases hrec : transformBindMounts rf bp rest files2 with
            | error e =>
              rw [hrec] at h
              simp [Except.map] at h
            | ok p =>
              rw [hrec] at h
              simp only [Except.map] at h
              replace h := Except.ok.inj h
              injection h with hm hf
              have hcond : inlineCondGo bp m := ⟨hb, hne⟩
              have hfiles2 := addExtraFile_ok fs0 (fsBase m.source) buf files2 hadd
              obtain ⟨ihm, ihf⟩ := ih files2 p.1 p.2 (by rw [hrec])
              constructor
              · rw [← hm, List.map_cons, if_pos hcond, ihm]
              · intro name
                rw [← hf, ihf name, hfiles2, lookupKey_setKey_isSome]
                constructor
                · rintro ((h0 | hn) | ⟨m2, hm2, hc2, hn2⟩)
                  · exact Or.inl h0
                  · exact Or.inr ⟨m, List.mem_cons_self m rest, hcond, hn.symm⟩
                  · exact Or.inr ⟨m2, List.mem_cons_of_mem m hm2, hc2, hn2⟩
                · rintro (h0 | ⟨m2, hm2, hc2, hn2⟩)
                  · exact Or.inl (Or.inl h0)
                  · rcases List.mem_cons.mp hm2 with hm2 | hm2
                    · exact Or.inl (Or.inr (by rw [← hn2, hm2]))
                    · exact Or.inr ⟨m2, hm2, hc2, hn2⟩
    · rw [if_neg hb] at h
      cases hrec : transformBindMounts rf bp rest fs0 with
      | error e =>
        rw [hrec] at h
        simp [Except.map] at h
      | ok p =>
        rw [hrec] at h
        simp only [Except.map] at h
        replace h := Except.ok.inj h
        injection h with hm hf
        have hcond : ¬inlineCondGo bp m := fun hc => hb hc.1
        obtain ⟨ihm, ihf⟩ := ih fs0 p.1 p.2 (by rw [hrec])
        constructor
        · rw [← hm, List.map_cons, if_neg hcond, ihm]
        · intro name
          rw [← hf, ihf name]
          constructor
          · rintro (h0 | ⟨m2, hm2, hc2, hn2⟩)
            · exact Or.inl h0
            · exact Or.inr ⟨m2, List.mem_cons_of_mem m hm2, hc2, hn2⟩
          · rintro (h0 | ⟨m2, hm2, hc2, hn2⟩)
            · exact Or.inl h0
            · rcases List.mem_cons.mp hm2 with hm2 | hm2
              · exact absurd (hm2 ▸ hc2) hcond
              · exact Or.inr ⟨m2, hm2, hc2, hn2⟩

/-- Counterexample to C8 as stated: the code compares only base names,
so a bind mount whose source lives in a DIFFERENT directory that merely
shares the bundle directory's base name is still inlined and rewritten,
although its parent directory is not the bundle directory. -/
theorem transformBindMounts_basename_counterexample :
    fsDir ["other", "cid", "f"] ≠ ["bundles", "cid"] ∧
    transformBindMounts (fun _ => some [7]) ["bundles", "cid"]
      ([⟨"/etc/f", "bind", ["other", "cid", "f"], []⟩] : List Mount) [] =
      .ok (([⟨"/etc/f", "bind", ["f"], []⟩] : List Mount), [("f", [7])]) := by
  refine ⟨by decide, ?_⟩
  rfl

/-- Witness for the amended C8: a bundle-local bind mount is inlined, a
proc mount is left alone. -/
theorem transformBindMounts_cond_witness :
    transformBindMounts (fun _ => some [7]) ["bundles", "cid"]
      ([⟨"/etc/g", "bind", ["bundles", "cid", "g"], []⟩,
        ⟨"/proc", "proc", ["proc"], []⟩] : List Mount) [] =
      .ok (([⟨"/etc/g", "bind", ["g"], []⟩,
        ⟨"/proc", "proc", ["proc"], []⟩] : List Mount), [("g", [7])]) ∧
    ([⟨"/etc/g", "bind", ["g"], []⟩, ⟨"/proc", "proc", ["proc"], []⟩] : List Mount) =
      ([⟨"/etc/g", "bind", ["bundles", "cid", "g"], []⟩,
        ⟨"/proc", "proc", ["proc"], []⟩] : List Mount).map (fun m =>
          if inlineCondGo ["bundles", "cid"] m then { m with source := [fsBase m.source] }
          else m) ∧
    ((lookupKey [("g", [7])] "g").isSome ↔
      ((lookupKey ([] : List (String × List Nat)) "g").isSome ∨
        ∃ m ∈ ([⟨"/etc/g", "bind", ["bundles", "cid", "g"], []⟩,
          ⟨"/proc", "proc", ["proc"], []⟩] : List Mount),
          inlineCondGo ["bundles", "cid"] m ∧ fsBase m.source = "g")) := by
  have h : transformBindMounts (fun _ => some [7]) ["bundles", "cid"]
      ([⟨"/etc/g", "bind", ["bundles", "cid", "g"], []⟩,
        ⟨"/proc", "proc", ["proc"], []⟩] : List Mount) [] =
      .ok (([⟨"/etc/g", "bind", ["g"], []⟩,
        ⟨"/proc", "proc", ["proc"], []⟩] : List Mount), [("g", [7])]) := by rfl
  have hc := transformBindMounts_cond (fun _ => some [7]) ["bundles", "cid"]
    ([⟨"/etc/g", "bind", ["bundles", "cid", "g"], []⟩,
      ⟨"/proc", "proc", ["proc"], []⟩] : List Mount) [] _ _ h
  exact ⟨h, hc.1, hc.2 "g"⟩

/-- One `specs.LinuxDeviceCgroup` rule, restricted to the fields
`RelaxOCISpec` writes. -/
structure LinuxDeviceCgroup where
  allow : Bool
  access : String
deriving DecidableEq, Repr

/-- The `specs.LinuxResources` block: the devices whitelist plus
representative other resource fields (memory and CPU limits), which Go
`RelaxOCISpec` silently discards by replacing the whole struct. -/
structure LinuxResources where
  devices : List LinuxDeviceCgroup
  memoryLimit : Option Int
  cpuQuota : Option Int
deriving DecidableEq, Repr

/-- The `specs.Linux` section, restricted to the fields `RelaxOCISpec`
touches plus the namespaces list as a representative untouched field. -/
structure LinuxConfig where
  namespaces : List String
  resources : Option LinuxResources
  readonlyPaths : List String
  maskedPaths : List String
  seccomp : Option Nat
deriving DecidableEq, Repr

/-- An OCI runtime spec, restricted to the sections `RelaxOCISpec` reads
or writes plus representative untouched fields. -/
structure OCISpec where
  version : String
  processArgs : List String
  hostname : String
  mounts : List Mount
  linux : Option LinuxConfig
deriving DecidableEq, Repr

/-- The single allow-all rule `{Allow: true, Access: "rwm"}` that
`RelaxOCISpec` installs. -/
def allowAllDeviceRule : LinuxDeviceCgroup := ⟨true, "rwm"⟩

/-- The `/etc/resolv.conf` bind mount `RelaxOCISpec` appends. -/
def resolvConfMount : Mount :=
  ⟨"/etc/resolv.conf", "bind", ["etc", "resolv.conf"], ["rbind", "ro"]⟩

/-- An empty `specs.Linux` section (what Go's `&specs.Linux{}` creates
when the spec had none). -/
def emptyLinuxConfig : LinuxConfig :=
  { namespaces := [], resources := none, readonlyPaths := [], maskedPaths := []
    seccomp := none }

/-- Embeds Go `RelaxOCISpec` (`runc/util.go:75`) as the pure transform
it applies between `readSpec` and `writeSpec`: create the Linux section
if absent; REPLACE the whole `Resources` struct by one holding only the
allow-all device rule; clear readonly paths, masked paths and seccomp;
append the `/etc/resolv.conf` bind mount unless a mount with that
destination already exists. -/
def relaxOCISpec (s : OCISpec) : OCISpec :=
  let l := s.linux.getD emptyLinuxConfig
  let l2 := { l with
    resources := some { devices := [allowAllDeviceRule], memoryLimit := none
                        cpuQuota := none }
    readonlyPaths := []
    maskedPaths := []
    seccomp := none }
  let mounts2 :=
    if ∃ m ∈ s.mounts, m.destination = "/etc/resolv.conf" then s.mounts
    else s.mounts ++ [resolvConfMount]
  { s with linux := some l2, mounts := mounts2 }

/-- Counterexample to C9 as stated: `RelaxOCISpec` replaces the entire
`Linux.Resources` struct, so a configured memory limit (a field other
than the devices cgroup) does NOT survive, contradicting "leaves every
other field of the spec unchanged". -/
theorem relaxOCISpec_wipes_resources_counterexample :
    ((⟨"1.0.0", ["sh"], "h", [],
        some ⟨["pid"], some ⟨[], some 1024, some 50⟩, ["/proc/kcore"], ["/proc/acpi"],
          some 1⟩⟩ : OCISpec).linux.getD emptyLinuxConfig).resources =
      some ⟨[], some 1024, some 50⟩ ∧
    ((relaxOCISpec ⟨"1.0.0", ["sh"], "h", [],
        some ⟨["pid"], some ⟨[], some 1024, some 50⟩, ["/proc/kcore"], ["/proc/acpi"],
          some 1⟩⟩).linux.getD emptyLinuxConfig).resources =
      some ⟨[allowAllDeviceRule], none, none⟩ ∧
    (some (1024 : Int) : Option Int) ≠ none := by
  refine ⟨rfl, rfl, by decide⟩


/-- C9 (amended): for every spec, `RelaxOCISpec` clears seccomp, masked
and readonly paths, REPLACES the whole resources block with one
containing only the single allow-all device rule (discarding any other
resource limits), appends the `/etc/resolv.conf` bind mount if and only
if no mount with that destination exists, creates the Linux section if
it was absent, and leaves the version, process, hostname, namespaces and
pre-existing mounts unchanged. -/
theorem relaxOCISpec_effects :
    (∀ (s : OCISpec) (l : LinuxConfig), s.linux = some l →
      relaxOCISpec s = { s with
        linux := some { l with
          resources := some { devices := [allowAllDeviceRule], memoryLimit := none
                              cpuQuota := none }
          readonlyPaths := []
          maskedPaths := []
          seccomp := none }
        mounts :=
          if ∃ m ∈ s.mounts, m.destination = "/etc/resolv.conf" then s.mounts
          else s.mounts ++ [resolvConfMount] }) ∧
    (∀ s : OCISpec, s.linux = none →
      relaxOCISpec s = { s with
        linux := some { namespaces := []
                        resources := some { devices := [allowAllDeviceRule]
                                            memoryLimit := none
                                            cpuQuota := none }
                        readonlyPaths := []
                        maskedPaths := []
                        seccomp := none }
        mounts :=
          if ∃ m ∈ s.mounts, m.destination = "/etc/resolv.conf" then s.mounts
          else s.mounts ++ [resolvConfMount] }) ∧
    (∀ s : OCISpec, (∃ m ∈ s.mounts, m.destination = "/etc/resolv.conf") →
      (relaxOCISpec s).mounts = s.mounts) ∧
    (∀ s : OCISpec, ¬(∃ m ∈ s.mounts, m.destination = "/etc/resolv.conf") →
      (relaxOCISpec s).mounts = s.mounts ++ [resolvConfMount]) := by
  refine ⟨?_, ?_, ?_, ?_⟩
  · intro s l h
    simp [relaxOCISpec, h]
  · intro s h
    simp [relaxOCISpec, h, emptyLinuxConfig]
  · intro s hex
    simp [relaxOCISpec, hex]
  · intro s hex
    simp [relaxOCISpec, hex]

/-- Witness for the amended C9: a concrete spec with a Linux section and
no resolv.conf mount, and a concrete spec without a Linux section. -/
theorem relaxOCISpec_effects_witness :
    relaxOCISpec (⟨"1.0.0", ["sh"], "h", [],
        some ⟨["pid"], some ⟨[], some 1024, some 50⟩, ["/proc/kcore"], ["/proc/acpi"],
          some 1⟩⟩ : OCISpec) =
      { (⟨"1.0.0", ["sh"], "h", [],
          some ⟨["pid"], some ⟨[], some 1024, some 50⟩, ["/proc/kcore"], ["/proc/acpi"],
            some 1⟩⟩ : OCISpec) with
        linux := some { (⟨["pid"], some ⟨[], some 1024, some 50⟩, ["/proc/kcore"],
            ["/proc/acpi"], some 1⟩ : LinuxConfig) with
          resources := some { devices := [allowAllDeviceRule], memoryLimit := none
                              cpuQuota := none }
          readonlyPaths := []
          maskedPaths := []
          seccomp := none }
        mounts :=
          if ∃ m ∈ (⟨"1.0.0", ["sh"], "h", [],
              some ⟨["pid"], some ⟨[], some 1024, some 50⟩, ["/proc/kcore"],
                ["/proc/acpi"], some 1⟩⟩ : OCISpec).mounts,
              m.destination = "/etc/resolv.conf" then
            (⟨"1.0.0", ["sh"], "h", [],
              some ⟨["pid"], some ⟨[], some 1024, some 50⟩, ["/proc/kcore"],
                ["/proc/acpi"], some 1⟩⟩ : OCISpec).mounts
          else
            (⟨"1.0.0", ["sh"], "h", [],
              some ⟨["pid"], some ⟨[], some 1024, some 50⟩, ["/proc/kcore"],
                ["/proc/acpi"], some 1⟩⟩ : OCISpec).mounts ++ [resolvConfMount] } ∧
    relaxOCISpec (⟨"1.0.0", ["sh"], "h", [], none⟩ : OCISpec) =
      { (⟨"1.0.0", ["sh"], "h", [], none⟩ : OCISpec) with
        linux := some { namespaces := ([] : List String)
                        resources := some { devices := [allowAllDeviceRule]
                                            memoryLimit := none
                                            cpuQuota := none }
                        readonlyPaths := []
                        maskedPaths := []
                        seccomp := none }
        mounts :=
          if ∃ m ∈ (⟨"1.0.0", ["sh"], "h", [], none⟩ : OCISpec).mounts,
              m.destination = "/etc/resolv.conf" then
            (⟨"1.0.0", ["sh"], "h", [], none⟩ : OCISpec).mounts
          else
            (⟨"1.0.0", ["sh"], "h", [], none⟩ : OCISpec).mounts ++ [resolvConfMount] } ∧
    (relaxOCISpec (⟨"1.0.0", ["sh"], "h", [],
        some ⟨["pid"], some ⟨[], some 1024, some 50⟩, ["/proc/kcore"], ["/proc/acpi"],
          some 1⟩⟩ : OCISpec)).mounts = [] ++ [resolvConfMount] := by
  refine ⟨?_, ?_, ?_⟩
  · exact relaxOCISpec_effects.1 (⟨"1.0.0", ["sh"], "h", [],
        some ⟨["pid"], some ⟨[], some 1024, some 50⟩, ["/proc/kcore"], ["/proc/acpi"],
          some 1⟩⟩ : OCISpec)
      (⟨["pid"], some ⟨[], some 1024, some 50⟩, ["/proc/kcore"], ["/proc/acpi"],
        some 1⟩ : LinuxConfig) rfl
  · exact relaxOCISpec_effects.2.1 (⟨"1.0.0", ["sh"], "h", [], none⟩ : OCISpec) rfl
  · exact relaxOCISpec_effects.2.2.2 (⟨"1.0.0", ["sh"], "h", [],
        some ⟨["pid"], some ⟨[], some 1024, some 50⟩, ["/proc/kcore"], ["/proc/acpi"],
          some 1⟩⟩ : OCISpec) (by simp)
